import Mathlib

/-!
Verification of the adaptive Parquet datasource
(`awswrangler/distributed/ray/datasources/arrow_parquet_datasource.py`).

Numeric values are modelled with `ℚ` (Python floats / ints), machine sizes
with `ℕ`.  External collaborators (pyarrow file statistics, numpy helpers,
the random generator) are modelled by explicit Lean functions or function
parameters, following the source's use of them.
-/

namespace ArrowParquet

/-- `PARQUET_READER_ROW_BATCH_SIZE = 10_000`. -/
def PARQUET_READER_ROW_BATCH_SIZE : ℕ := 10000

/-- `FILE_READING_RETRY = 8`. -/
def FILE_READING_RETRY : ℕ := 8

/-- `PARQUET_ENCODING_RATIO_ESTIMATE_DEFAULT = 5`. -/
def PARQUET_ENCODING_RATIO_ESTIMATE_DEFAULT : ℚ := 5

/-- `PARQUET_ENCODING_RATIO_ESTIMATE_LOWER_BOUND = 2`. -/
def PARQUET_ENCODING_RATIO_ESTIMATE_LOWER_BOUND : ℚ := 2

/-- `PARQUET_ENCODING_RATIO_ESTIMATE_MIN_NUM_SAMPLES = 2`. -/
def PARQUET_ENCODING_RATIO_ESTIMATE_MIN_NUM_SAMPLES : ℕ := 2

/-- `PARQUET_ENCODING_RATIO_ESTIMATE_MAX_NUM_SAMPLES = 10`. -/
def PARQUET_ENCODING_RATIO_ESTIMATE_MAX_NUM_SAMPLES : ℕ := 10

/-- `_SampleInfo`: the two optional per-sample statistics
(`None` models an absent field). -/
structure SampleInfo where
  actual_bytes_per_row : Option ℚ
  estimated_bytes_per_row : Option ℚ
deriving DecidableEq

/-- `np.mean` of a list of numbers (the code only applies it to nonempty
lists). -/
def npMean (l : List ℚ) : ℚ := l.sum / (l.length : ℚ)

/-- The inner `compute_encoding_ratio` of `_estimate_files_encoding_ratio`:
`actual/estimated` when both fields are present, otherwise the lower
bound 2. -/
def compute_encoding_ratio (s : SampleInfo) : ℚ :=
  match s.actual_bytes_per_row, s.estimated_bytes_per_row with
  | some a, some e => a / e
  | _, _ => PARQUET_ENCODING_RATIO_ESTIMATE_LOWER_BOUND

/-- `_estimate_files_encoding_ratio`.  The global toggle
`DataContext.get_current().decoding_size_estimation` is passed explicitly
as `decoding_size_estimation`. -/
def estimate_files_encoding_ratio (decoding_size_estimation : Bool)
    (sample_infos : List SampleInfo) : ℚ :=
  if ¬ decoding_size_estimation then PARQUET_ENCODING_RATIO_ESTIMATE_DEFAULT
  else
    max (npMean (sample_infos.map compute_encoding_ratio))
      PARQUET_ENCODING_RATIO_ESTIMATE_LOWER_BOUND

/-- The inner `compute_batch_size_rows` of
`_estimate_default_read_batch_size_rows`.  The global
`DataContext.get_current().target_max_block_size` is passed explicitly as
`target_max_block_size`; `// 10` is Python integer floor division and the
second `//` is float floor division (modelled with `Int.floor` on `ℚ`). -/
def compute_batch_size_rows (target_max_block_size : ℕ) (s : SampleInfo) : ℚ :=
  match s.actual_bytes_per_row with
  | none => (PARQUET_READER_ROW_BATCH_SIZE : ℚ)
  | some a =>
      max 1 (min (PARQUET_READER_ROW_BATCH_SIZE : ℚ)
        ((⌊((target_max_block_size / 10 : ℕ) : ℚ) / a⌋ : ℤ) : ℚ))

/-- `_estimate_default_read_batch_size_rows`: `np.mean` over the
per-sample batch sizes. -/
def estimate_default_read_batch_size_rows (target_max_block_size : ℕ)
    (sample_infos : List SampleInfo) : ℚ :=
  npMean (sample_infos.map (compute_batch_size_rows target_max_block_size))

/-- The per-sample batch size as the spec's aggregation sentence words it:
`clamp(floor(max_block_bytes/10 / actual_bytes_per_row), min=1, max=10000)`
with `max_block_bytes/10` read as exact division.  Stated only to compare
with `compute_batch_size_rows`, which is translated from the source. -/
def specCompute_batch_size_rows (target_max_block_size : ℕ) (s : SampleInfo) : ℚ :=
  match s.actual_bytes_per_row with
  | none => (PARQUET_READER_ROW_BATCH_SIZE : ℚ)
  | some a =>
      max 1 (min (PARQUET_READER_ROW_BATCH_SIZE : ℚ)
        ((⌊((target_max_block_size : ℚ) / 10) / a⌋ : ℤ) : ℚ))

/-- The spec-worded whole-list batch-size estimate built on
`specCompute_batch_size_rows`. -/
def specEstimate_default_read_batch_size_rows (target_max_block_size : ℕ)
    (sample_infos : List SampleInfo) : ℚ :=
  npMean (sample_infos.map (specCompute_batch_size_rows target_max_block_size))

/-- On-disk statistics of one row group (`total_byte_size`). -/
structure RowGroupMeta where
  total_byte_size : ℕ
deriving DecidableEq

/-- The whole-file statistics exposed by the columnar-format capability
(`fragment.metadata`): the per-row-group byte sizes and the file's total
row count.  (A fragment subset to its first row group keeps original
row-group ids, so its `metadata` accessor still exposes the whole file's
statistics.) -/
structure FileMetaStats where
  row_groups : List RowGroupMeta
  num_rows : ℕ
deriving DecidableEq

/-- The first record batch read from a sampled fragment
(`batch.nbytes`, `batch.num_rows`). -/
structure SampledBatch where
  nbytes : ℕ
  num_rows : ℕ
deriving DecidableEq

/-- The `for idx in range(metadata.num_row_groups): total_size +=
metadata.row_group(idx).total_byte_size` loop of `_sample_fragment`. -/
def totalRowGroupSize (meta : FileMetaStats) : ℕ :=
  meta.row_groups.foldl (fun acc rg => acc + rg.total_byte_size) 0

/-- `_sample_fragment`, given the file statistics of the fragment and the
first batch produced by `to_batches` (`none` models `StopIteration`). -/
def sample_fragment (meta : FileMetaStats) (firstBatch : Option SampledBatch) :
    SampleInfo :=
  match firstBatch with
  | none => ⟨none, none⟩
  | some batch =>
      if batch.num_rows > 0 then
        { actual_bytes_per_row := some ((batch.nbytes : ℚ) / (batch.num_rows : ℚ))
          estimated_bytes_per_row :=
            some ((totalRowGroupSize meta : ℚ) / (meta.num_rows : ℚ)) }
      else ⟨none, none⟩

/-- The sample-count computation of `_sample_fragments`:
`num_samples = int(num_files * 0.01)` clamped between
`min(2, num_files)` and `min(10, num_files)`.  (`int()` of the nonnegative
float product truncates, i.e. floors; `n * 0.01` is modelled by the exact
`n / 100`, which agrees with the float computation on the inputs used
here.) -/
def numFileSamples (num_files : ℕ) : ℕ :=
  let num_samples := (⌊(num_files : ℚ) * (1 / 100)⌋).toNat
  let min_num_samples := min PARQUET_ENCODING_RATIO_ESTIMATE_MIN_NUM_SAMPLES num_files
  let max_num_samples := min PARQUET_ENCODING_RATIO_ESTIMATE_MAX_NUM_SAMPLES num_files
  max (min num_samples max_num_samples) min_num_samples

/-- Round-half-to-even on `ℚ` (the semantics of Python's builtin
`round`). -/
def roundHalfEven (q : ℚ) : ℤ :=
  if q - (⌊q⌋ : ℚ) = 1 / 2 then (if 2 ∣ ⌊q⌋ then ⌊q⌋ else ⌊q⌋ + 1) else round q

/-- The sample count as the spec's sentence words it:
`clamp(round(num_files * 0.01), min=min(2, num_files), max=min(10,
num_files))`.  Stated only to compare with `numFileSamples`, which is
translated from the source. -/
def specNumFileSamples (num_files : ℕ) : ℕ :=
  max (min ((roundHalfEven ((num_files : ℚ) * (1 / 100))).toNat)
        (min PARQUET_ENCODING_RATIO_ESTIMATE_MAX_NUM_SAMPLES num_files))
    (min PARQUET_ENCODING_RATIO_ESTIMATE_MIN_NUM_SAMPLES num_files)

/-- The sampled file indices of `_sample_fragments`:
`np.linspace(0, num_files - 1, num_samples).astype(int)` — evenly spaced
interpolation over `[0, num_files - 1]`, truncated to integers. -/
def sampleFileIndices (num_files : ℕ) : List ℕ :=
  let k := numFileSamples num_files
  if k = 0 then []
  else if k = 1 then [0]
  else (List.range k).map fun i =>
    (⌊((i : ℚ) * ((num_files - 1 : ℕ) : ℚ)) / ((k - 1 : ℕ) : ℚ)⌋).toNat

/-- Observable outcome of one call to `_deserialize_fragments_with_retry`:
the returned value or raised exception (`Except.error none` models the
`raise final_exception` with no recorded failure, unreachable for positive
retry budgets), the number of loop iterations entered (`attempts`), the
number of `_logger.exception` calls (`logs`), and the successive
`time.sleep` durations. -/
structure RetryTrace (E A : Type) where
  result : Except (Option E) A
  attempts : ℕ
  logs : ℕ
  sleeps : List ℚ

/-- The `for i in range(FILE_READING_RETRY)` loop of
`_deserialize_fragments_with_retry`.  `resolve i` is the body's
`_deserialize_fragments` call at iteration `i`; `r` is the single
`random.random()` draw; `m` is `min_interval` and `fin` is
`final_exception`. -/
def retryLoopAux (resolve : ℕ → Except E A) (r : ℚ) :
    ℕ → ℕ → ℚ → Option E → RetryTrace E A
  | 0, _, _, fin => ⟨Except.error fin, 0, 0, []⟩
  | fuel + 1, i, m, fin =>
      match resolve i with
      | Except.ok a => ⟨Except.ok a, 1, 0, []⟩
      | Except.error e =>
          let m1 := if m = 0 then 1 + r else m
          let rest := retryLoopAux resolve r fuel (i + 1) (m1 * 2) (some e)
          ⟨rest.result, rest.attempts + 1, rest.logs + 1, m1 :: rest.sleeps⟩

/-- `_deserialize_fragments_with_retry`, abstracted over the underlying
resolver (`_deserialize_fragments`, indexed by attempt number) and the
one-time jitter draw `r = random.random()`. -/
def deserialize_fragments_with_retry (resolve : ℕ → Except E A) (r : ℚ) :
    RetryTrace E A :=
  retryLoopAux resolve r FILE_READING_RETRY 0 0 none

/-- Prefetched per-file metadata kept in `self._metadata`
(`file_metadata.total_byte_size`). -/
structure FileMetadata where
  total_byte_size : ℕ
deriving DecidableEq

/-- The chunk sizes produced by `np.array_split` on a length-`L` sequence
cut into `n` sections: `L % n` chunks of size `L / n + 1` followed by
chunks of size `L / n`. -/
def splitSizes (L n : ℕ) : List ℕ :=
  (List.range n).map fun i => L / n + if i < L % n then 1 else 0

/-- Cut a list into consecutive chunks of the given sizes. -/
def takeDropChunks : List ℕ → List α → List (List α)
  | [], _ => []
  | s :: ss, l => l.take s :: takeDropChunks ss (l.drop s)

/-- `np.array_split(l, n)` (always returns exactly `n` chunks). -/
def arraySplit (l : List α) (n : ℕ) : List (List α) :=
  takeDropChunks (splitSizes l.length n) l

/-- Zip three lists into triples, truncating to the shortest (Python
`zip`). -/
def zip3 : List α → List β → List γ → List (α × β × γ)
  | a :: as_, b :: bs, c :: cs => (a, b, c) :: zip3 as_ bs cs
  | _, _, _ => []

/-- One `ReadTask`'s fragment group: the parallel fragment, path and
prefetched-metadata slices handed to `_read_fragments`. -/
structure ReadTask (α : Type) where
  fragments : List α
  paths : List String
  metadata : List (Option FileMetadata)
deriving DecidableEq

/-- The task-building loop of `get_read_tasks`: zip the three
`np.array_split` results and skip chunks with no fragments
(`if len(fragments) <= 0: continue`). -/
def mkReadTasks (frs : List α) (ps : List String)
    (md : List (Option FileMetadata)) (parallelism : ℕ) : List (ReadTask α) :=
  (zip3 (arraySplit frs parallelism) (arraySplit ps parallelism)
      (arraySplit md parallelism)).filterMap
    fun t => if 0 < t.1.length then some ⟨t.1, t.2.1, t.2.2⟩ else none

/-- The metadata padding of `get_read_tasks`: when fewer metadata entries
than fragments were prefetched, `pq_metadata += [None] * ...` extends the
list (in place) to the fragment count. -/
def padMetadata (md : List (Option FileMetadata)) (n : ℕ) :
    List (Option FileMetadata) :=
  if md.length < n then md ++ List.replicate (n - md.length) none else md

/-- The datasource state stored by `ArrowParquetDatasource.__init__` that
the examined methods read or write: `self._pq_fragments`, `self._pq_paths`,
`self._metadata`, `self._encoding_ratio`, `self._schema`, and
`self._file_metadata_shuffler` (the generator state of the
`np.random.default_rng()` instance, `none` when `shuffle` was not
requested).  Fragment handles have abstract type `α`, the schema abstract
type `β`. -/
structure Datasource (α β : Type) where
  pq_fragments : List α
  pq_paths : List String
  metadata : List (Option FileMetadata)
  encoding_ratio : ℚ
  schema : β
  shuffler : Option ℕ
deriving DecidableEq

/-- `ArrowParquetDatasource.get_read_tasks`.  The numpy random generator
is abstracted as `draw : state → length → permutation × state`
(`Generator.permutation` consumes generator state); the method returns the
produced tasks together with the datasource state after the call. -/
def get_read_tasks (draw : ℕ → ℕ → List ℕ × ℕ) (ds : Datasource α β)
    (parallelism : ℕ) : List (ReadTask α) × Datasource α β :=
  let pq_metadata := padMetadata ds.metadata ds.pq_fragments.length
  match ds.shuffler with
  | some s =>
      let files_metadata := zip3 ds.pq_fragments ds.pq_paths pq_metadata
      let drawn := draw s files_metadata.length
      let shuffled := drawn.1.filterMap fun i => files_metadata.get? i
      (mkReadTasks (shuffled.map (·.1)) (shuffled.map (·.2.1))
          (shuffled.map (·.2.2)) parallelism,
        { ds with metadata := pq_metadata, shuffler := some drawn.2 })
  | none =>
      (mkReadTasks ds.pq_fragments ds.pq_paths pq_metadata parallelism,
        { ds with metadata := pq_metadata })

/-- `ArrowParquetDatasource.estimate_inmemory_data_size`: the
`total_size` accumulation loop over `self._metadata` followed by
`total_size * self._encoding_ratio`.  An absent (`none`) entry — possible
only after `get_read_tasks` padded the stored list — makes the loop fail
on `None.total_byte_size`, modelled by `none`. -/
def estimate_inmemory_data_size (ds : Datasource α β) : Option ℚ :=
  (ds.metadata.foldl
      (fun acc m => acc.bind fun t => m.map fun fm => t + fm.total_byte_size)
      (some (0 : ℕ))).map
    fun t => (t : ℚ) * ds.encoding_ratio

/-- Errors surfaced by `ArrowParquetDatasource.__init__` while prefetching
file metadata. -/
inductive InitError where
  | invalidFile
  | osError
  | otherArrowInvalid
deriving DecidableEq

/-- Outcome of `meta_provider.prefetch_file_metadata`: the prefetched
metadata list, or a raised `OSError` / `pyarrow.ArrowInvalid` (the flag
records whether the message contains "Parquet file size is 0 bytes"). -/
inductive PrefetchOutcome where
  | ok (md : List FileMetadata)
  | osError
  | arrowInvalid (zero_size_message : Bool)
deriving DecidableEq

/-- Modelled from the spec: the metadata-prefetch capability
(`meta_provider.prefetch_file_metadata`, an external collaborator whose
implementation is not under `src/`) raises `pyarrow.ArrowInvalid` with
message "Parquet file size is 0 bytes" when some file of the corpus
reports zero usable on-disk size, and otherwise returns each file's
statistics. -/
def prefetch_file_metadata (files : List FileMetaStats) : PrefetchOutcome :=
  if files.any (fun f => totalRowGroupSize f = 0) then
    PrefetchOutcome.arrowInvalid true
  else
    PrefetchOutcome.ok (files.map fun f => ⟨totalRowGroupSize f⟩)

/-- The metadata-prefetch and size-estimation phase of
`ArrowParquetDatasource.__init__` (lines 269–300): translate prefetch
exceptions (`ArrowInvalid` mentioning a zero-size file becomes
`exceptions.InvalidFile`), then — only on success — sample the evenly
spaced fragments and compute the encoding ratio, producing the stored
datasource state.  `firstBatch` gives each sampled file's first
`to_batches` batch; `shuffle`/`seed` model the `shuffle == "files"`
branch. -/
def datasource_init (decoding_size_estimation : Bool)
    (files : List FileMetaStats) (paths : List String) (schema : β)
    (firstBatch : FileMetaStats → Option SampledBatch)
    (shuffle : Bool) (seed : ℕ) :
    Except InitError (Datasource FileMetaStats β) :=
  match prefetch_file_metadata files with
  | PrefetchOutcome.osError => Except.error InitError.osError
  | PrefetchOutcome.arrowInvalid true => Except.error InitError.invalidFile
  | PrefetchOutcome.arrowInvalid false => Except.error InitError.otherArrowInvalid
  | PrefetchOutcome.ok md =>
      let sample_infos := (sampleFileIndices files.length).filterMap fun idx =>
        (files.get? idx).map fun f => sample_fragment f (firstBatch f)
      Except.ok
        { pq_fragments := files
          pq_paths := paths
          metadata := md.map some
          encoding_ratio :=
            estimate_files_encoding_ratio decoding_size_estimation sample_infos
          schema := schema
          shuffler := if shuffle then some seed else none }

/-- Resolver stub for the C2 witness: fails on the first seven attempts,
succeeds on the eighth. -/
def resolveSevenFail : ℕ → Except Unit Unit := fun i =>
  if i < 7 then Except.error () else Except.ok ()

/-- Datasource with two fragments but no prefetched metadata, used to
refute C8's absent-return clause. -/
def dsNoMeta : Datasource ℕ Unit :=
  { pq_fragments := [0, 1], pq_paths := ["a", "b"], metadata := [],
    encoding_ratio := 5, schema := (), shuffler := none }

/-- The spec's end-to-end corpus: 5 single-row-group files, one with zero
on-disk size and zero rows. -/
def filesWithZero : List FileMetaStats :=
  [⟨[⟨100⟩], 10⟩, ⟨[⟨100⟩], 10⟩, ⟨[⟨0⟩], 0⟩, ⟨[⟨100⟩], 10⟩, ⟨[⟨100⟩], 10⟩]

/-- Concrete 7-fragment unshuffled datasource for the C3 example. -/
def ds7 : Datasource ℕ Unit :=
  { pq_fragments := List.range 7, pq_paths := List.replicate 7 "p",
    metadata := List.replicate 7 (some ⟨1⟩), encoding_ratio := 2,
    schema := (), shuffler := none }

/-- Concrete two-fragment datasource with shuffling enabled (generator
state 0), for the C4 counterexample. -/
def dsShuffled : Datasource ℕ Unit :=
  { pq_fragments := [0, 1], pq_paths := ["a", "b"],
    metadata := [some ⟨1⟩, some ⟨2⟩], encoding_ratio := 5, schema := (),
    shuffler := some 0 }

/-- Concrete three-fragment unshuffled datasource for the C4 witness. -/
def dsPlain : Datasource ℕ Unit :=
  { pq_fragments := [10, 20, 30], pq_paths := ["x", "y", "z"],
    metadata := [some ⟨7⟩, some ⟨8⟩, some ⟨9⟩], encoding_ratio := 5,
    schema := (), shuffler := none }

/-- Concrete datasource whose prefetched metadata list is shorter than its
fragment list, for the C10 counterexample. -/
def dsPadded : Datasource ℕ Unit :=
  { pq_fragments := [0, 1], pq_paths := ["a", "b"], metadata := [some ⟨4⟩],
    encoding_ratio := 2, schema := (), shuffler := none }

/-! ### Helper lemmas about `np.array_split` -/

theorem takeDropChunks_length (ss : List ℕ) :
    ∀ l : List α, (takeDropChunks ss l).length = ss.length := by
  induction ss with
  | nil => intro l; rfl
  | cons s ss ih => intro l; simp [takeDropChunks, ih]

theorem splitSizes_length (L n : ℕ) : (splitSizes L n).length = n := by
  simp [splitSizes]

theorem arraySplit_length (l : List α) (n : ℕ) : (arraySplit l n).length = n := by
  simp [arraySplit, takeDropChunks_length, splitSizes_length]

theorem join_takeDropChunks (ss : List ℕ) :
    ∀ l : List α, (takeDropChunks ss l).join = l.take ss.sum := by
  induction ss with
  | nil => intro l; simp [takeDropChunks]
  | cons s ss ih =>
      intro l
      simp only [takeDropChunks, List.join_cons, ih, List.sum_cons,
        List.take_add]

theorem sum_map_add_ite (a r : ℕ) :
    ∀ n : ℕ, (((List.range n).map fun i => a + if i < r then 1 else 0).sum)
      = n * a + min r n := by
  intro n
  induction n with
  | zero => simp
  | succ n ih =>
      rw [List.range_succ]
      simp only [List.map_append, List.sum_append, ih, List.map_cons,
        List.map_nil, List.sum_cons, List.sum_nil]
      rw [Nat.add_mul, Nat.one_mul]
      by_cases h : n < r
      · simp only [if_pos h]
        omega
      · simp only [if_neg h]
        omega

theorem splitSizes_sum (L n : ℕ) (hn : 1 ≤ n) : (splitSizes L n).sum = L := by
  have h := sum_map_add_ite (L / n) (L % n) n
  have hmod : L % n < n := Nat.mod_lt _ (by omega)
  have hdm := Nat.div_add_mod L n
  simp only [splitSizes, h]
  have : min (L % n) n = L % n := by omega
  rw [this]
  omega

theorem arraySplit_join (l : List α) (n : ℕ) (hn : 1 ≤ n) :
    (arraySplit l n).join = l := by
  rw [arraySplit, join_takeDropChunks, splitSizes_sum _ _ hn, List.take_length]

theorem takeDropChunks_map_length (ss : List ℕ) :
    ∀ l : List α, ss.sum ≤ l.length →
      (takeDropChunks ss l).map List.length = ss := by
  induction ss with
  | nil => intro l _; rfl
  | cons s ss ih =>
      intro l h
      simp only [List.sum_cons] at h
      have h1 : (l.take s).length = s := by
        rw [List.length_take]; omega
      have h2 : ss.sum ≤ (l.drop s).length := by
        rw [List.length_drop]; omega
      simp [takeDropChunks, h1, ih _ h2]

theorem arraySplit_map_length (l : List α) (n : ℕ) (hn : 1 ≤ n) :
    (arraySplit l n).map List.length = splitSizes l.length n := by
  apply takeDropChunks_map_length
  rw [splitSizes_sum _ _ hn]

theorem arraySplit_mem_length (l : List α) (n : ℕ) (hn : 1 ≤ n)
    (c : List α) (hc : c ∈ arraySplit l n) :
    c.length = l.length / n ∨ c.length = l.length / n + 1 := by
  have h1 : c.length ∈ (arraySplit l n).map List.length :=
    List.mem_map_of_mem _ hc
  rw [arraySplit_map_length _ _ hn] at h1
  simp only [splitSizes, List.mem_map, List.mem_range] at h1
  obtain ⟨i, _, hi⟩ := h1
  by_cases h : i < l.length % n
  · rw [if_pos h] at hi
    right; omega
  · rw [if_neg h] at hi
    left; omega

theorem join_filter_pos_length (cs : List (List α)) :
    ((cs.filter fun c => decide (0 < c.length)).join) = cs.join := by
  induction cs with
  | nil => rfl
  | cons c cs ih =>
      by_cases h : 0 < c.length
      · simp [List.filter_cons, h, ih]
      · have : c = [] := by
          cases c with
          | nil => rfl
          | cons a as => simp at h
        simp [List.filter_cons, h, ih, this]

/-! ### Helper lemmas about `zip3` and the task-building loop -/

theorem zip3_map_fst :
    ∀ (A : List α) (B : List β) (C : List γ),
      A.length ≤ B.length → A.length ≤ C.length →
      (zip3 A B C).map (·.1) = A := by
  intro A
  induction A with
  | nil => intro B C _ _; cases B <;> cases C <;> rfl
  | cons a A ih =>
      intro B C hB hC
      cases B with
      | nil => simp at hB
      | cons b B =>
          cases C with
          | nil => simp at hC
          | cons c C =>
              simp only [List.length_cons, Nat.add_le_add_iff_right] at hB hC
              simp [zip3, ih B C hB hC]

theorem zip3_length_left :
    ∀ (A : List α) (B : List β) (C : List γ),
      A.length ≤ B.length → A.length ≤ C.length →
      (zip3 A B C).length = A.length := by
  intro A B C hB hC
  have h := congrArg List.length (zip3_map_fst A B C hB hC)
  simpa using h

theorem filterMap_tasks_map_fragments :
    ∀ (A : List (List α)) (B : List (List String))
      (C : List (List (Option FileMetadata))),
      A.length ≤ B.length → A.length ≤ C.length →
      (((zip3 A B C).filterMap fun t =>
          if 0 < t.1.length then some (⟨t.1, t.2.1, t.2.2⟩ : ReadTask α)
          else none).map ReadTask.fragments)
        = A.filter fun c => decide (0 < c.length) := by
  intro A
  induction A with
  | nil => intro B C _ _; cases B <;> cases C <;> rfl
  | cons a A ih =>
      intro B C hB hC
      cases B with
      | nil => simp at hB
      | cons b B =>
          cases C with
          | nil => simp at hC
          | cons c C =>
              simp only [List.length_cons, Nat.add_le_add_iff_right] at hB hC
              by_cases h : 0 < a.length
              · simp [zip3, List.filterMap_cons, h, List.filter_cons,
                  ih B C hB hC]
              · simp [zip3, List.filterMap_cons, h, List.filter_cons,
                  ih B C hB hC]

theorem mkReadTasks_map_fragments (frs : List α) (ps : List String)
    (md : List (Option FileMetadata)) (n : ℕ) :
    (mkReadTasks frs ps md n).map ReadTask.fragments
      = (arraySplit frs n).filter fun c => decide (0 < c.length) := by
  apply filterMap_tasks_map_fragments
  · rw [arraySplit_length, arraySplit_length]
  · rw [arraySplit_length, arraySplit_length]

theorem filterMap_get?_range (l : List γ) :
    (List.range l.length).filterMap (fun i => l.get? i) = l := by
  induction l with
  | nil => rfl
  | cons a l ih =>
      rw [List.length_cons, List.range_succ_eq_map]
      have h0 : (a :: l).get? 0 = some a := rfl
      rw [List.filterMap_cons_some h0, List.filterMap_map]
      have h1 : ((fun i => (a :: l).get? i) ∘ Nat.succ) = fun i => l.get? i := by
        funext i; rfl
      rw [h1, ih]

theorem perm_filterMap_get? (l : List γ) (perm : List ℕ)
    (h : perm.Perm (List.range l.length)) :
    (perm.filterMap fun i => l.get? i).Perm l := by
  have h1 := h.filterMap fun i => l.get? i
  rw [filterMap_get?_range] at h1
  exact h1

theorem padMetadata_length (md : List (Option FileMetadata)) (n : ℕ) :
    (padMetadata md n).length = max md.length n := by
  by_cases h : md.length < n
  · simp [padMetadata, h]; omega
  · simp [padMetadata, h]; omega

/-- The fragment groups that `get_read_tasks` produces are exactly the
nonempty `np.array_split` chunks of a permutation of the stored fragment
list (the identity permutation when shuffling is off). -/
theorem get_read_tasks_fragments {α β : Type} (draw : ℕ → ℕ → List ℕ × ℕ)
    (ds : Datasource α β) (n : ℕ)
    (hperm : ∀ s k, (draw s k).1.Perm (List.range k))
    (hp : ds.pq_paths.length = ds.pq_fragments.length)
    (hm : ds.metadata.length ≤ ds.pq_fragments.length) :
    ∃ frs' : List α, frs'.Perm ds.pq_fragments ∧
      (ds.shuffler = none → frs' = ds.pq_fragments) ∧
      ((get_read_tasks draw ds n).1.map ReadTask.fragments)
        = (arraySplit frs' n).filter fun c => decide (0 < c.length) := by
  cases hds : ds.shuffler with
  | none =>
      refine ⟨ds.pq_fragments, List.Perm.refl _, fun _ => rfl, ?_⟩
      simp only [get_read_tasks, hds]
      exact mkReadTasks_map_fragments _ _ _ _
  | some s =>
      have hlen_md : ds.pq_fragments.length
          ≤ (padMetadata ds.metadata ds.pq_fragments.length).length := by
        rw [padMetadata_length]; omega
      have hfm_fst :
          (zip3 ds.pq_fragments ds.pq_paths
              (padMetadata ds.metadata ds.pq_fragments.length)).map (·.1)
            = ds.pq_fragments :=
        zip3_map_fst _ _ _ (le_of_eq hp.symm) hlen_md
      simp only [get_read_tasks, hds]
      refine ⟨_, ?_, ?_, mkReadTasks_map_fragments _ _ _ _⟩
      · have h1 := perm_filterMap_get?
          (zip3 ds.pq_fragments ds.pq_paths
            (padMetadata ds.metadata ds.pq_fragments.length))
          (draw s (zip3 ds.pq_fragments ds.pq_paths
            (padMetadata ds.metadata ds.pq_fragments.length)).length).1
          (hperm s _)
        have h2 := h1.map (fun x : α × String × Option FileMetadata => x.1)
        refine h2.trans ?_
        rw [hfm_fst]
      · intro hno
        exact absurd hno (Option.some_ne_none s)

/-! ### Helper lemmas about the retry loop -/

theorem retryLoopAux_attempts_le (resolve : ℕ → Except E A) (r : ℚ) :
    ∀ (fuel i : ℕ) (m : ℚ) (fin : Option E),
      (retryLoopAux resolve r fuel i m fin).attempts ≤ fuel := by
  intro fuel
  induction fuel with
  | zero => intro i m fin; simp [retryLoopAux]
  | succ fuel ih =>
      intro i m fin
      simp only [retryLoopAux]
      cases resolve i with
      | ok a => simp
      | error e => simpa using ih (i + 1) _ (some e)

theorem retryLoopAux_ok (resolve : ℕ → Except E A) (r : ℚ) (a : A) :
    ∀ (k fuel i : ℕ) (m : ℚ) (fin : Option E), k < fuel →
      (∀ j, j < k → ∃ e, resolve (i + j) = Except.error e) →
      resolve (i + k) = Except.ok a →
      (retryLoopAux resolve r fuel i m fin).result = Except.ok a
      ∧ (retryLoopAux resolve r fuel i m fin).logs = k
      ∧ (retryLoopAux resolve r fuel i m fin).attempts = k + 1 := by
  intro k
  induction k with
  | zero =>
      intro fuel i m fin hk _ hok
      cases fuel with
      | zero => omega
      | succ fuel =>
          rw [Nat.add_zero] at hok
          simp [retryLoopAux, hok]
  | succ k ih =>
      intro fuel i m fin hk hfail hok
      cases fuel with
      | zero => omega
      | succ fuel =>
          obtain ⟨e0, he0⟩ := hfail 0 (by omega)
          rw [Nat.add_zero] at he0
          have hfail' : ∀ j, j < k → ∃ e, resolve (i + 1 + j) = Except.error e := by
            intro j hj
            obtain ⟨e, he⟩ := hfail (j + 1) (by omega)
            exact ⟨e, by rw [show i + 1 + j = i + (j + 1) by omega]; exact he⟩
          have hok' : resolve (i + 1 + k) = Except.ok a := by
            rw [show i + 1 + k = i + (k + 1) by omega]; exact hok
          have hr := ih fuel (i + 1) ((if m = 0 then 1 + r else m) * 2) (some e0)
            (by omega) hfail' hok'
          simp only [retryLoopAux, he0]
          exact ⟨hr.1, by rw [hr.2.1], by rw [hr.2.2]⟩

theorem retryLoopAux_allfail (resolve : ℕ → Except E A) (r : ℚ) :
    ∀ (fuel i : ℕ) (m : ℚ) (fin : Option E),
      (∀ j, j < fuel → ∃ e, resolve (i + j) = Except.error e) →
      (retryLoopAux resolve r fuel i m fin).attempts = fuel
      ∧ (retryLoopAux resolve r fuel i m fin).logs = fuel
      ∧ ∀ e, 1 ≤ fuel → resolve (i + (fuel - 1)) = Except.error e →
          (retryLoopAux resolve r fuel i m fin).result = Except.error (some e) := by
  intro fuel
  induction fuel with
  | zero =>
      intro i m fin _
      refine ⟨rfl, rfl, fun e h => by omega⟩
  | succ fuel ih =>
      intro i m fin hfail
      obtain ⟨e0, he0⟩ := hfail 0 (by omega)
      rw [Nat.add_zero] at he0
      have hfail' : ∀ j, j < fuel → ∃ e, resolve (i + 1 + j) = Except.error e := by
        intro j hj
        obtain ⟨e, he⟩ := hfail (j + 1) (by omega)
        exact ⟨e, by rw [show i + 1 + j = i + (j + 1) by omega]; exact he⟩
      have hr := ih (i + 1) ((if m = 0 then 1 + r else m) * 2) (some e0) hfail'
      simp only [retryLoopAux, he0]
      refine ⟨by rw [hr.1], by rw [hr.2.1], ?_⟩
      intro e _ he
      cases fuel with
      | zero =>
          rw [Nat.add_zero] at he
          rw [he0] at he
          cases he
          simp [retryLoopAux]
      | succ fuel =>
          have he' : resolve (i + 1 + (fuel + 1 - 1)) = Except.error e := by
            rw [show i + 1 + (fuel + 1 - 1) = i + (fuel + 1 + 1 - 1) by omega]
            exact he
          exact hr.2.2 e (by omega) he'

theorem cons_double_pow (m : ℚ) (L : ℕ) :
    m :: ((List.range L).map fun k => m * 2 * 2 ^ k)
      = (List.range (L + 1)).map fun k => m * 2 ^ k := by
  rw [List.range_succ_eq_map, List.map_cons, List.map_map]
  refine List.cons_eq_cons.mpr ⟨by ring, ?_⟩
  apply List.map_congr_left
  intro k _
  simp only [Function.comp_apply, Nat.succ_eq_add_one, pow_succ]
  ring

theorem retryLoopAux_sleeps (resolve : ℕ → Except E A) (r : ℚ) :
    ∀ (fuel : ℕ) (m : ℚ), m ≠ 0 → ∀ (i : ℕ) (fin : Option E),
      (retryLoopAux resolve r fuel i m fin).sleeps
        = (List.range (retryLoopAux resolve r fuel i m fin).logs).map
            fun k => m * 2 ^ k := by
  intro fuel
  induction fuel with
  | zero => intro m _ i fin; simp [retryLoopAux]
  | succ fuel ih =>
      intro m hm i fin
      simp only [retryLoopAux]
      cases resolve i with
      | ok a => simp
      | error e =>
          simp only [if_neg hm]
          have h2 : m * 2 ≠ 0 := mul_ne_zero hm two_ne_zero
          have := ih (m * 2) h2 (i + 1) (some e)
          simp only [this]
          exact cons_double_pow m _

theorem retryLoopAux_succ_ok (resolve : ℕ → Except E A) (r : ℚ)
    (fuel i : ℕ) (m : ℚ) (fin : Option E) (a : A)
    (h : resolve i = Except.ok a) :
    retryLoopAux resolve r (fuel + 1) i m fin
      = ⟨Except.ok a, 1, 0, []⟩ := by
  simp [retryLoopAux, h]

theorem retryLoopAux_succ_error (resolve : ℕ → Except E A) (r : ℚ)
    (fuel i : ℕ) (m : ℚ) (fin : Option E) (e : E)
    (h : resolve i = Except.error e) :
    retryLoopAux resolve r (fuel + 1) i m fin
      = { result := (retryLoopAux resolve r fuel (i + 1)
            ((if m = 0 then 1 + r else m) * 2) (some e)).result
          attempts := (retryLoopAux resolve r fuel (i + 1)
            ((if m = 0 then 1 + r else m) * 2) (some e)).attempts + 1
          logs := (retryLoopAux resolve r fuel (i + 1)
            ((if m = 0 then 1 + r else m) * 2) (some e)).logs + 1
          sleeps := (if m = 0 then 1 + r else m)
            :: (retryLoopAux resolve r fuel (i + 1)
              ((if m = 0 then 1 + r else m) * 2) (some e)).sleeps } := by
  simp [retryLoopAux, h]

theorem deserialize_retry_sleeps (resolve : ℕ → Except E A) (r : ℚ)
    (hr : 0 ≤ r) :
    (deserialize_fragments_with_retry resolve r).sleeps
      = (List.range (deserialize_fragments_with_retry resolve r).logs).map
          fun k => (1 + r) * 2 ^ k := by
  have h1 : (1 : ℚ) + r ≠ 0 := by positivity
  have hdef : deserialize_fragments_with_retry resolve r
      = retryLoopAux resolve r (7 + 1) 0 0 none := rfl
  rw [hdef]
  cases hres : resolve 0 with
  | ok a =>
      rw [retryLoopAux_succ_ok resolve r 7 0 0 none a hres]
      simp
  | error e =>
      have h2 : (1 + r) * 2 ≠ 0 := mul_ne_zero h1 two_ne_zero
      rw [retryLoopAux_succ_error resolve r 7 0 0 none e hres]
      simp only [reduceIte]
      have h3 := retryLoopAux_sleeps resolve r 7 ((1 + r) * 2) h2 (0 + 1) (some e)
      rw [h3]
      exact cons_double_pow (1 + r) _

/-! ### Helper lemmas about `np.mean` -/

theorem npMean_le (l : List ℚ) (c : ℚ) (hne : l ≠ []) (h : ∀ x ∈ l, x ≤ c) :
    npMean l ≤ c := by
  have hlen : 0 < (l.length : ℚ) := by
    have := List.length_pos.mpr hne
    exact_mod_cast this
  rw [npMean, div_le_iff hlen]
  have := List.sum_le_card_nsmul l c h
  simpa [nsmul_eq_mul, mul_comm] using this

theorem le_npMean (l : List ℚ) (c : ℚ) (hne : l ≠ []) (h : ∀ x ∈ l, c ≤ x) :
    c ≤ npMean l := by
  have hlen : 0 < (l.length : ℚ) := by
    have := List.length_pos.mpr hne
    exact_mod_cast this
  rw [npMean, le_div_iff hlen]
  have := List.card_nsmul_le_sum l c h
  simpa [nsmul_eq_mul, mul_comm] using this

theorem npMean_const (l : List ℚ) (c : ℚ) (hne : l ≠ []) (h : ∀ x ∈ l, x = c) :
    npMean l = c := by
  have hlen : (l.length : ℚ) ≠ 0 := by
    have := List.length_pos.mpr hne
    positivity
  rw [npMean, List.sum_eq_card_nsmul l c h, nsmul_eq_mul,
    mul_comm, mul_div_assoc, div_self hlen, mul_one]

/-! ### Claim theorems -/

/-- C1: for every nonempty sample list the encoding-ratio estimate is at
least the lower bound 2; it is exactly 5 when the global size-estimation
toggle is disabled; with the toggle enabled it is the arithmetic mean of
the per-sample ratios floored at 2, where a per-sample ratio is
`actual/estimated` when both fields are present and 2 otherwise. -/
theorem claim1_encoding_ratio (toggle : Bool) (samples : List SampleInfo)
    (hne : samples ≠ []) :
    PARQUET_ENCODING_RATIO_ESTIMATE_LOWER_BOUND
        ≤ estimate_files_encoding_ratio toggle samples
    ∧ (toggle = false → estimate_files_encoding_ratio toggle samples = 5)
    ∧ (toggle = true →
        estimate_files_encoding_ratio toggle samples
          = max (npMean (samples.map compute_encoding_ratio)) 2)
    ∧ (∀ s ∈ samples, ∀ a e : ℚ, s.actual_bytes_per_row = some a →
        s.estimated_bytes_per_row = some e → compute_encoding_ratio s = a / e)
    ∧ (∀ s ∈ samples,
        s.actual_bytes_per_row = none ∨ s.estimated_bytes_per_row = none →
        compute_encoding_ratio s = 2) := by
  refine ⟨?_, ?_, ?_, ?_, ?_⟩
  · cases toggle with
    | false =>
        simp [estimate_files_encoding_ratio,
          PARQUET_ENCODING_RATIO_ESTIMATE_DEFAULT,
          PARQUET_ENCODING_RATIO_ESTIMATE_LOWER_BOUND]
        norm_num
    | true =>
        simp only [estimate_files_encoding_ratio,
          PARQUET_ENCODING_RATIO_ESTIMATE_LOWER_BOUND]
        simp
  · intro h
    subst h
    simp [estimate_files_encoding_ratio, PARQUET_ENCODING_RATIO_ESTIMATE_DEFAULT]
  · intro h
    subst h
    simp [estimate_files_encoding_ratio,
      PARQUET_ENCODING_RATIO_ESTIMATE_LOWER_BOUND]
  · intro s _ a e ha he
    simp [compute_encoding_ratio, ha, he]
  · intro s _ h
    cases ha : s.actual_bytes_per_row <;> cases hb : s.estimated_bytes_per_row <;>
      simp_all [compute_encoding_ratio, PARQUET_ENCODING_RATIO_ESTIMATE_LOWER_BOUND]

/-- Witness for C1 at the spec's own single-sample example. -/
theorem claim1_witness :
    (([⟨some 3072, some (2048 / 1000)⟩] : List SampleInfo) ≠ [])
    ∧ PARQUET_ENCODING_RATIO_ESTIMATE_LOWER_BOUND
        ≤ estimate_files_encoding_ratio true [⟨some 3072, some (2048 / 1000)⟩] := by
  have h : (([⟨some 3072, some (2048 / 1000)⟩] : List SampleInfo) ≠ []) := by
    simp
  exact ⟨h, (claim1_encoding_ratio true _ h).1⟩

/-- C2: the retrying resolver makes at most 8 attempts; when the resolver
fails on attempts 0–6 and succeeds on attempt 7, the success is returned
and exactly 7 failures are logged; when it always fails, the 8th attempt's
error is raised after exactly 8 attempts; the sleep before each retry is
`1 + r` fixed at the first failure and doubled for each subsequent
failure. -/
theorem claim2_retry {E A : Type} (resolve : ℕ → Except E A) (r : ℚ)
    (hr : 0 ≤ r) :
    (deserialize_fragments_with_retry resolve r).attempts ≤ 8
    ∧ (∀ a : A, (∀ i, i < 7 → ∃ e, resolve i = Except.error e) →
        resolve 7 = Except.ok a →
        (deserialize_fragments_with_retry resolve r).result = Except.ok a
        ∧ (deserialize_fragments_with_retry resolve r).logs = 7)
    ∧ ((∀ i, ∃ e, resolve i = Except.error e) →
        (deserialize_fragments_with_retry resolve r).attempts = 8
        ∧ ∀ e, resolve 7 = Except.error e →
            (deserialize_fragments_with_retry resolve r).result
              = Except.error (some e))
    ∧ (deserialize_fragments_with_retry resolve r).sleeps
        = (List.range (deserialize_fragments_with_retry resolve r).logs).map
            fun k => (1 + r) * 2 ^ k := by
  refine ⟨?_, ?_, ?_, deserialize_retry_sleeps resolve r hr⟩
  · exact retryLoopAux_attempts_le resolve r 8 0 0 none
  · intro a hfail hok
    have h := retryLoopAux_ok resolve r a 7 8 0 0 none (by omega)
      (fun j hj => by simpa using hfail j hj) (by simpa using hok)
    exact ⟨h.1, h.2.1⟩
  · intro hfail
    have h := retryLoopAux_allfail resolve r 8 0 0 none
      (fun j _ => by simpa using hfail j)
    exact ⟨h.1, fun e he => h.2.2 e (by omega) (by simpa using he)⟩

/-- Witness for C2: the fails-seven-times-then-succeeds scenario. -/
theorem claim2_witness :
    (0 : ℚ) ≤ 0
    ∧ (deserialize_fragments_with_retry resolveSevenFail 0).result
        = Except.ok ()
    ∧ (deserialize_fragments_with_retry resolveSevenFail 0).logs = 7 := by
  have h := (claim2_retry resolveSevenFail 0 le_rfl).2.1 ()
    (fun i hi => ⟨(), by simp [resolveSevenFail, hi]⟩)
    (by simp [resolveSevenFail])
  exact ⟨le_rfl, h.1, h.2⟩

theorem foldl_add_totalByteSize (l : List RowGroupMeta) :
    ∀ a : ℕ, l.foldl (fun acc rg => acc + rg.total_byte_size) a
      = a + (l.map fun rg => rg.total_byte_size).sum := by
  induction l with
  | nil => intro a; simp
  | cons rg l ih =>
      intro a
      simp [List.foldl_cons, ih, Nat.add_assoc]

theorem totalRowGroupSize_cast (meta : FileMetaStats) :
    (totalRowGroupSize meta : ℚ)
      = (meta.row_groups.map fun rg => (rg.total_byte_size : ℚ)).sum := by
  rw [totalRowGroupSize, foldl_add_totalByteSize, Nat.zero_add,
    Nat.cast_list_sum, List.map_map]
  rfl

/-- C5: for a sampled file whose first batch is nonempty, the recorded
`estimated_bytes_per_row` is the sum of the on-disk sizes of all the
file's row groups divided by the file's total row count from its
statistics, while `actual_bytes_per_row` comes from the sampled batch. -/
theorem claim5_sample_fragment (meta : FileMetaStats) (batch : SampledBatch)
    (h : 0 < batch.num_rows) :
    (sample_fragment meta (some batch)).estimated_bytes_per_row
      = some ((meta.row_groups.map fun rg => (rg.total_byte_size : ℚ)).sum
          / (meta.num_rows : ℚ))
    ∧ (sample_fragment meta (some batch)).actual_bytes_per_row
      = some ((batch.nbytes : ℚ) / (batch.num_rows : ℚ)) := by
  constructor <;> simp [sample_fragment, h, totalRowGroupSize_cast]

/-- Witness for C5 at a two-row-group file. -/
theorem claim5_witness :
    0 < (⟨64, 2⟩ : SampledBatch).num_rows
    ∧ (sample_fragment ⟨[⟨100⟩, ⟨50⟩], 30⟩ (some ⟨64, 2⟩)).estimated_bytes_per_row
      = some ((([⟨100⟩, ⟨50⟩] : List RowGroupMeta).map
            fun rg => (rg.total_byte_size : ℚ)).sum
          / (((⟨[⟨100⟩, ⟨50⟩], 30⟩ : FileMetaStats).num_rows : ℕ) : ℚ)) := by
  exact ⟨by decide, (claim5_sample_fragment ⟨[⟨100⟩, ⟨50⟩], 30⟩ ⟨64, 2⟩ (by decide)).1⟩

theorem numFileSamples_eq (n : ℕ) :
    numFileSamples n = max (min (n / 100) (min 10 n)) (min 2 n) := by
  have hconv : ((⌊(n : ℚ) * (1 / 100)⌋).toNat) = n / 100 := by
    rw [show (n : ℚ) * (1 / 100) = (n : ℚ) / ((100 : ℕ) : ℚ) by push_cast; ring]
    rw [Int.floor_toNat, Nat.floor_div_nat, Nat.floor_natCast]
  simp only [numFileSamples, hconv,
    PARQUET_ENCODING_RATIO_ESTIMATE_MIN_NUM_SAMPLES,
    PARQUET_ENCODING_RATIO_ESTIMATE_MAX_NUM_SAMPLES]

/-- C6 counterexample: the code truncates `num_files * 0.01` (Python
`int()`), it does not round.  At 350 files (product exactly 3.5, also as a
float) the code samples 3 files while the claim's
`clamp(round(350 * 0.01), 2, 10)` gives 4. -/
theorem claim6_counterexample :
    numFileSamples 350 = 3 ∧ specNumFileSamples 350 = 4 ∧ (3 : ℕ) ≠ 4 := by
  refine ⟨?_, ?_, by norm_num⟩
  · rw [numFileSamples_eq]; omega
  · have hf : (⌊(7 / 2 : ℚ)⌋ : ℤ) = 3 := by norm_num [Int.floor_eq_iff]
    have hr : roundHalfEven (((350 : ℕ) : ℚ) * (1 / 100)) = 4 := by
      rw [show ((350 : ℕ) : ℚ) * (1 / 100) = 7 / 2 by push_cast; norm_num,
        roundHalfEven, hf]
      rw [if_pos (by norm_num), if_neg (by norm_num)]
      norm_num
    simp only [specNumFileSamples, hr,
      PARQUET_ENCODING_RATIO_ESTIMATE_MIN_NUM_SAMPLES,
      PARQUET_ENCODING_RATIO_ESTIMATE_MAX_NUM_SAMPLES]
    omega

/-- C6 (amended): the sample count is
`clamp(trunc(num_files * 0.01), min=min(2, num_files), max=min(10,
num_files))` — truncation (floor) of the nonnegative product, not
rounding; the sampled indices are deterministic evenly spaced
interpolation over `[0, num_files - 1]`; 1000 files give exactly 10
samples, at indices 0, 111, …, 999. -/
theorem claim6_amended :
    (∀ num_files : ℕ, numFileSamples num_files
        = max (min (num_files / 100) (min 10 num_files)) (min 2 num_files))
    ∧ numFileSamples 1000 = 10
    ∧ sampleFileIndices 1000
        = [0, 111, 222, 333, 444, 555, 666, 777, 888, 999]
    ∧ sampleFileIndices 7 = [0, 6] := by
  have h1000 : numFileSamples 1000 = 10 := by rw [numFileSamples_eq]; omega
  have h7 : numFileSamples 7 = 2 := by rw [numFileSamples_eq]; omega
  refine ⟨numFileSamples_eq, h1000, ?_, ?_⟩
  · simp only [sampleFileIndices, h1000]
    norm_num [List.range_succ, Int.floor_eq_iff]
    decide
  · simp only [sampleFileIndices, h7]
    norm_num [List.range_succ, Int.floor_eq_iff]
    decide

/-- C7 counterexample: the code floor-divides the configured block size by
10 before dividing by `actual_bytes_per_row`; the claim's
`floor((max_block_bytes/10) / actual)` with exact inner division differs.
With `max_block_bytes = 15` and one sample of 3/4 actual bytes per row the
code yields 1, the claimed formula 2. -/
theorem claim7_counterexample :
    estimate_default_read_batch_size_rows 15 [⟨some (3 / 4), some 1⟩] = 1
    ∧ specEstimate_default_read_batch_size_rows 15 [⟨some (3 / 4), some 1⟩] = 2
    ∧ (1 : ℚ) ≠ 2 := by
  have hc : compute_batch_size_rows 15 ⟨some (3 / 4), some 1⟩ = 1 := by
    have hf : (⌊((15 / 10 : ℕ) : ℚ) / (3 / 4)⌋ : ℤ) = 1 := by
      norm_num [Int.floor_eq_iff]
    simp only [compute_batch_size_rows, hf, PARQUET_READER_ROW_BATCH_SIZE]
    norm_num
  have hs : specCompute_batch_size_rows 15 ⟨some (3 / 4), some 1⟩ = 2 := by
    have hf : (⌊((15 : ℚ) / 10) / (3 / 4)⌋ : ℤ) = 2 := by
      norm_num [Int.floor_eq_iff]
    simp only [specCompute_batch_size_rows, hf, PARQUET_READER_ROW_BATCH_SIZE]
    norm_num
  refine ⟨?_, ?_, by norm_num⟩
  · simp [estimate_default_read_batch_size_rows, npMean, hc]
  · simp [specEstimate_default_read_batch_size_rows, npMean, hs]

/-- C7 (amended): for every nonempty sample list (with positive recorded
actual bytes per row, as produced by sampling) the estimate lies in
`[1, 10000]` and is the arithmetic mean of the per-sample contributions;
an absent `actual_bytes_per_row` contributes 10000, a present one
contributes `clamp(floor((max_block_bytes // 10) / actual), 1, 10000)`
with `//` the integer floor division of the source; all-absent samples
give exactly 10000. -/
theorem claim7_amended (mb : ℕ) (samples : List SampleInfo)
    (hne : samples ≠ [])
    (hpos : ∀ s ∈ samples, ∀ a : ℚ, s.actual_bytes_per_row = some a → 0 < a) :
    1 ≤ estimate_default_read_batch_size_rows mb samples
    ∧ estimate_default_read_batch_size_rows mb samples ≤ 10000
    ∧ ((∀ s ∈ samples, s.actual_bytes_per_row = none) →
        estimate_default_read_batch_size_rows mb samples = 10000)
    ∧ (∀ s ∈ samples, s.actual_bytes_per_row = none →
        compute_batch_size_rows mb s = 10000)
    ∧ (∀ s ∈ samples, ∀ a : ℚ, s.actual_bytes_per_row = some a →
        compute_batch_size_rows mb s
          = max 1 (min 10000 ((⌊((mb / 10 : ℕ) : ℚ) / a⌋ : ℤ) : ℚ))) := by
  have hmap_ne : samples.map (compute_batch_size_rows mb) ≠ [] := by
    simpa using hne
  have hbounds : ∀ x ∈ samples.map (compute_batch_size_rows mb),
      1 ≤ x ∧ x ≤ 10000 := by
    intro x hx
    obtain ⟨s, _, rfl⟩ := List.mem_map.mp hx
    cases ha : s.actual_bytes_per_row with
    | none =>
        simp [compute_batch_size_rows, ha, PARQUET_READER_ROW_BATCH_SIZE]
    | some a =>
        simp only [compute_batch_size_rows, ha, PARQUET_READER_ROW_BATCH_SIZE]
        constructor
        · exact le_max_left _ _
        · refine max_le (by norm_num) ((min_le_left _ _).trans ?_)
          norm_num
  refine ⟨?_, ?_, ?_, ?_, ?_⟩
  · exact le_npMean _ 1 hmap_ne fun x hx => (hbounds x hx).1
  · exact npMean_le _ 10000 hmap_ne fun x hx => (hbounds x hx).2
  · intro habsent
    refine npMean_const _ 10000 hmap_ne ?_
    intro x hx
    obtain ⟨s, hs, rfl⟩ := List.mem_map.mp hx
    simp [compute_batch_size_rows, habsent s hs, PARQUET_READER_ROW_BATCH_SIZE]
  · intro s _ ha
    simp [compute_batch_size_rows, ha, PARQUET_READER_ROW_BATCH_SIZE]
  · intro s _ a ha
    simp [compute_batch_size_rows, ha, PARQUET_READER_ROW_BATCH_SIZE]

/-- Witness for C7 (amended) at a single all-present sample. -/
theorem claim7_witness :
    (([⟨some 1, some 1⟩] : List SampleInfo) ≠ [])
    ∧ (∀ s ∈ ([⟨some 1, some 1⟩] : List SampleInfo),
        ∀ a : ℚ, s.actual_bytes_per_row = some a → 0 < a)
    ∧ 1 ≤ estimate_default_read_batch_size_rows 100 [⟨some 1, some 1⟩] := by
  have h1 : (([⟨some 1, some 1⟩] : List SampleInfo) ≠ []) := by simp
  have h2 : ∀ s ∈ ([⟨some 1, some 1⟩] : List SampleInfo),
      ∀ a : ℚ, s.actual_bytes_per_row = some a → 0 < a := by
    intro s hs a ha
    simp only [List.mem_singleton] at hs
    subst hs
    simp only at ha
    cases ha
    norm_num
  exact ⟨h1, h2, (claim7_amended 100 _ h1 h2).1⟩

/-- C8 counterexample: with no prefetched metadata the size estimate is
the number 0 (`0 * ratio`), not an absent value. -/
theorem claim8_counterexample :
    estimate_inmemory_data_size dsNoMeta = some 0
    ∧ estimate_inmemory_data_size dsNoMeta ≠ none := by
  have h : estimate_inmemory_data_size dsNoMeta = some 0 := by
    simp [estimate_inmemory_data_size, dsNoMeta]
  exact ⟨h, by rw [h]; simp⟩

theorem foldl_metadata_some (md : List FileMetadata) :
    ∀ t0 : ℕ, (md.map some).foldl
        (fun acc m => acc.bind fun t => m.map fun fm => t + fm.total_byte_size)
        (some t0)
      = some (t0 + (md.map fun fm => fm.total_byte_size).sum) := by
  induction md with
  | nil => intro t0; simp
  | cons fm md ih =>
      intro t0
      simp [List.foldl_cons, ih, Nat.add_assoc]

/-- C8 (amended): `estimate_inmemory_data_size` returns the sum of the
prefetched per-file on-disk byte sizes multiplied by the encoding ratio;
when no metadata was prefetched the sum is empty and the result is the
number 0, not an absent value. -/
theorem claim8_amended {α β : Type} (ds : Datasource α β)
    (md : List FileMetadata) (h : ds.metadata = md.map some) :
    estimate_inmemory_data_size ds
      = some (((md.map fun fm => fm.total_byte_size).sum : ℚ)
          * ds.encoding_ratio)
    ∧ (ds.metadata = [] → estimate_inmemory_data_size ds = some 0) := by
  constructor
  · rw [estimate_inmemory_data_size, h, foldl_metadata_some md 0]
    simp
    left
    congr 1
  · intro h0
    simp [estimate_inmemory_data_size, h0]

/-- Witness for C8 (amended) at two prefetched files. -/
theorem claim8_witness :
    (({ pq_fragments := [0, 1], pq_paths := ["a", "b"],
        metadata := [some ⟨3⟩, some ⟨5⟩], encoding_ratio := 2, schema := (),
        shuffler := none } : Datasource ℕ Unit).metadata
      = ([⟨3⟩, ⟨5⟩] : List FileMetadata).map some)
    ∧ estimate_inmemory_data_size
        ({ pq_fragments := [0, 1], pq_paths := ["a", "b"],
           metadata := [some ⟨3⟩, some ⟨5⟩], encoding_ratio := 2, schema := (),
           shuffler := none } : Datasource ℕ Unit)
      = some (((([⟨3⟩, ⟨5⟩] : List FileMetadata).map
            fun fm => fm.total_byte_size).sum : ℚ)
          * ({ pq_fragments := [0, 1], pq_paths := ["a", "b"],
               metadata := [some ⟨3⟩, some ⟨5⟩], encoding_ratio := 2,
               schema := (), shuffler := none } : Datasource ℕ Unit).encoding_ratio) := by
  exact ⟨rfl, (claim8_amended _ [⟨3⟩, ⟨5⟩] rfl).1⟩

/-- C9: a corpus containing a file of zero usable on-disk size makes
datasource construction fail with `InvalidFile` during metadata prefetch,
before any sampling or ratio estimation (so no division by zero is
reached) and without retrying. -/
theorem claim9_invalid_file {β : Type} (toggle : Bool)
    (files : List FileMetaStats) (paths : List String) (schema : β)
    (firstBatch : FileMetaStats → Option SampledBatch)
    (shuffle : Bool) (seed : ℕ)
    (h : ∃ f ∈ files, totalRowGroupSize f = 0) :
    datasource_init toggle files paths schema firstBatch shuffle seed
      = Except.error InitError.invalidFile := by
  obtain ⟨f, hf, h0⟩ := h
  have hany : (files.any fun f => totalRowGroupSize f = 0) = true := by
    rw [List.any_eq_true]
    exact ⟨f, hf, by simp [h0]⟩
  simp [datasource_init, prefetch_file_metadata, hany]

/-- Witness for C9 at the spec's 5-file corpus. -/
theorem claim9_witness :
    (∃ f ∈ filesWithZero, totalRowGroupSize f = 0)
    ∧ datasource_init true filesWithZero ["a", "b", "c", "d", "e"] ()
        (fun _ => none) false 0
      = Except.error InitError.invalidFile := by
  have h : ∃ f ∈ filesWithZero, totalRowGroupSize f = 0 := by decide
  exact ⟨h, claim9_invalid_file true filesWithZero _ () _ false 0 h⟩

theorem padMetadata_of_le (md : List (Option FileMetadata)) (n : ℕ)
    (h : n ≤ md.length) : padMetadata md n = md := by
  simp only [padMetadata]
  rw [if_neg (by omega)]

theorem padMetadata_idem (md : List (Option FileMetadata)) (n : ℕ) :
    padMetadata (padMetadata md n) n = padMetadata md n :=
  padMetadata_of_le _ _ (by rw [padMetadata_length]; omega)

/-- C3: for any parallelism `n ≥ 1` the partitioner yields at most `n`
groups, none empty, of sizes differing by at most one
(`numpy.array_split` semantics), and together the groups are a
permutation of — cover exactly once — the stored fragment list; in
particular 7 fragments at parallelism 3 give group sizes 3, 2, 2. -/
theorem claim3_partition {α β : Type} (draw : ℕ → ℕ → List ℕ × ℕ)
    (ds : Datasource α β) (n : ℕ) (hn : 1 ≤ n)
    (hperm : ∀ s k, (draw s k).1.Perm (List.range k))
    (hp : ds.pq_paths.length = ds.pq_fragments.length)
    (hm : ds.metadata.length ≤ ds.pq_fragments.length) :
    (get_read_tasks draw ds n).1.length ≤ n
    ∧ (∀ t ∈ (get_read_tasks draw ds n).1, 0 < t.fragments.length)
    ∧ (∀ t ∈ (get_read_tasks draw ds n).1,
        t.fragments.length = ds.pq_fragments.length / n
        ∨ t.fragments.length = ds.pq_fragments.length / n + 1)
    ∧ (((get_read_tasks draw ds n).1.map ReadTask.fragments).join.Perm
        ds.pq_fragments)
    ∧ ((get_read_tasks (fun s k => (List.range k, s)) ds7 3).1.map
        fun t => t.fragments.length) = [3, 2, 2] := by
  obtain ⟨frs', hfp, _, heq⟩ := get_read_tasks_fragments draw ds n hperm hp hm
  have hlen : frs'.length = ds.pq_fragments.length := hfp.length_eq
  refine ⟨?_, ?_, ?_, ?_, ?_⟩
  · have h1 : (get_read_tasks draw ds n).1.length
        = ((get_read_tasks draw ds n).1.map ReadTask.fragments).length := by
      rw [List.length_map]
    rw [h1, heq]
    exact (List.length_filter_le _ _).trans (le_of_eq (arraySplit_length _ _))
  · intro t ht
    have h1 : t.fragments
        ∈ (get_read_tasks draw ds n).1.map ReadTask.fragments :=
      List.mem_map_of_mem _ ht
    rw [heq] at h1
    have h2 := List.of_mem_filter h1
    simpa using h2
  · intro t ht
    have h1 : t.fragments
        ∈ (get_read_tasks draw ds n).1.map ReadTask.fragments :=
      List.mem_map_of_mem _ ht
    rw [heq] at h1
    have h2 := arraySplit_mem_length frs' n hn _ (List.mem_of_mem_filter h1)
    rw [hlen] at h2
    exact h2
  · rw [heq, join_filter_pos_length, arraySplit_join _ _ hn]
    exact hfp
  · rfl

/-- Witness for C3 at the 7-fragment, parallelism-3 example. -/
theorem claim3_witness :
    (1 : ℕ) ≤ 3
    ∧ (∀ s k : ℕ, ((fun s k => (List.range k, s)) s k).1.Perm (List.range k))
    ∧ ds7.pq_paths.length = ds7.pq_fragments.length
    ∧ ds7.metadata.length ≤ ds7.pq_fragments.length
    ∧ (get_read_tasks (fun s k => (List.range k, s)) ds7 3).1.length ≤ 3 := by
  have h1 : (1 : ℕ) ≤ 3 := by norm_num
  have h2 : ∀ s k : ℕ, ((fun s k => (List.range k, s)) s k).1.Perm
      (List.range k) := fun _ _ => List.Perm.refl _
  have h3 : ds7.pq_paths.length = ds7.pq_fragments.length := rfl
  have h4 : ds7.metadata.length ≤ ds7.pq_fragments.length := by decide
  exact ⟨h1, h2, h3, h4, (claim3_partition _ ds7 3 h1 h2 h3 h4).1⟩

/-- C4 counterexample: with shuffling enabled the stored generator is
consulted anew on every call and its state advances, so two successive
`get_read_tasks` calls on the same datasource produce different group
assignments (here under a valid stateful permutation sampler, each draw a
rotation): the first call groups the fragments as `[0, 1]`, the second as
`[1, 0]`.  This refutes "repeated calls are consistent". -/
theorem claim4_counterexample :
    (((fun s k : ℕ => ((List.range k).rotate s, s + 1)) 0 2).1.Perm
        (List.range 2))
    ∧ (((fun s k : ℕ => ((List.range k).rotate s, s + 1)) 1 2).1.Perm
        (List.range 2))
    ∧ ((get_read_tasks (fun s k => ((List.range k).rotate s, s + 1))
          dsShuffled 1).1.map ReadTask.fragments) = [[0, 1]]
    ∧ ((get_read_tasks (fun s k => ((List.range k).rotate s, s + 1))
          ((get_read_tasks (fun s k => ((List.range k).rotate s, s + 1))
            dsShuffled 1).2) 1).1.map ReadTask.fragments) = [[1, 0]]
    ∧ ([[0, 1]] : List (List ℕ)) ≠ [[1, 0]] := by
  refine ⟨by decide, by decide, ?_, ?_, by decide⟩
  · rfl
  · rfl

/-- C4 (amended): when shuffling is not requested the partition order is
the identity (input) ordering, the shuffler stays absent, and repeated
calls produce identical group assignments; when shuffling is requested
the stored unseeded generator is consulted anew on each call, advancing
its state, so two successive calls on one datasource need not agree
(calls from equal generator states on equal inputs trivially do). -/
theorem claim4_amended {α β : Type} (draw : ℕ → ℕ → List ℕ × ℕ)
    (ds : Datasource α β) (n : ℕ) (hs : ds.shuffler = none) (hn : 1 ≤ n) :
    (((get_read_tasks draw ds n).1.map ReadTask.fragments).join
        = ds.pq_fragments)
    ∧ (get_read_tasks draw ds n).2.shuffler = none
    ∧ (get_read_tasks draw ((get_read_tasks draw ds n).2) n).1
        = (get_read_tasks draw ds n).1 := by
  refine ⟨?_, ?_, ?_⟩
  · simp only [get_read_tasks, hs]
    rw [mkReadTasks_map_fragments, join_filter_pos_length,
      arraySplit_join _ _ hn]
  · simp [get_read_tasks, hs]
  · simp only [get_read_tasks, hs]
    rw [padMetadata_idem]

/-- Witness for C4 (amended) at a three-fragment unshuffled datasource. -/
theorem claim4_witness :
    dsPlain.shuffler = none ∧ (1 : ℕ) ≤ 2
    ∧ (((get_read_tasks (fun s k => (List.range k, s)) dsPlain 2).1.map
        ReadTask.fragments).join = dsPlain.pq_fragments) := by
  exact ⟨rfl, by norm_num, (claim4_amended _ dsPlain 2 rfl (by norm_num)).1⟩

/-- C10 counterexample: when the prefetched metadata list is shorter than
the fragment list, `get_read_tasks` pads it in place — the stored
metadata list observed after the call differs from the one before. -/
theorem claim10_counterexample :
    (get_read_tasks (fun s k => (List.range k, s)) dsPadded 1).2.metadata
      = [some ⟨4⟩, none]
    ∧ dsPadded.metadata = [some ⟨4⟩]
    ∧ ([some (⟨4⟩ : FileMetadata), none] ≠ [some ⟨4⟩]) := by
  refine ⟨rfl, rfl, by decide⟩

/-- C10 (amended): `get_read_tasks` leaves the fragment list, path list,
encoding ratio and schema unchanged; the stored metadata list is
replaced by its padding to the fragment-list length — unchanged exactly
when it already has (at least) that length, extended in place with
absent markers when it is shorter. -/
theorem claim10_amended {α β : Type} (draw : ℕ → ℕ → List ℕ × ℕ)
    (ds : Datasource α β) (n : ℕ) :
    (get_read_tasks draw ds n).2.pq_fragments = ds.pq_fragments
    ∧ (get_read_tasks draw ds n).2.pq_paths = ds.pq_paths
    ∧ (get_read_tasks draw ds n).2.encoding_ratio = ds.encoding_ratio
    ∧ (get_read_tasks draw ds n).2.schema = ds.schema
    ∧ (get_read_tasks draw ds n).2.metadata
        = padMetadata ds.metadata ds.pq_fragments.length := by
  cases hds : ds.shuffler <;> simp [get_read_tasks, hds]

end ArrowParquet
